import Mathlib

/-!
# Chauffeur front-end plugin: entry-point registry, scanner and linkage rewriter

A shallow embedding of `FrontEndPlugin/src/chauffeur.cpp`.

* `std::string` is `String`; positions are `Nat`, `string::npos` is `none`.
* `std::map<string, V>` is the list of its entries in ascending key order
  (`StdMap`), the order in which a `std::map` iterator walks them.
* The `DriverInfo` singleton is an explicit state value threaded through the
  visitors.
* The clang syntax tree is the inductive type `Stmt`; a checked `cast<T>` that
  meets a node of another class (or a null pointer) is the failure `none`.
* The clang `Rewriter` is the list of edits it was asked to make.
-/

namespace Chauffeur

/-! ## `std::string` operations used by the plugin -/

/-- The call `s.find_last_of(".")` for a one-character set: the index of the
last occurrence of `c` in `s`, `none` standing for `string::npos`. -/
def find_last_of : List Char → Char → Option Nat
  | [], _ => none
  | x :: xs, c =>
    match find_last_of xs c with
    | some i => some (i + 1)
    | none => if x = c then some 0 else none

/-- The call `hay.find(needle)`: the index of the first occurrence of `needle`
in `hay`, `none` standing for `string::npos`. -/
def find : List Char → List Char → Option Nat
  | [], needle => if needle = [] then some 0 else none
  | h :: hay, needle =>
    if needle.isPrefixOf (h :: hay) then some 0
    else (find hay needle).map (· + 1)

/-- The expression `fdFileWithExt.substr(0, fdFileWithExt.find_last_of("."))`
of `VisitFunctionDecl` and `VisitVarDecl`; `substr(0, npos)` is the whole
string. -/
def fdFile (fdFileWithExt : String) : String :=
  match find_last_of fdFileWithExt.data '.' with
  | some n => ⟨fdFileWithExt.data.take n⟩
  | none => fdFileWithExt

/-! ## `std::map` -/

/-- A `std::map<string, β>`, as the list of its entries in iteration order.
Keys are compared as `std::less<string>` does, lexicographically character by
character (`a.data < b.data`). -/
abbrev StdMap (β : Type) := List (String × β)

namespace StdMap

/-- The class invariant of `std::map`: keys strictly ascending. -/
def Ordered {β : Type} (m : StdMap β) : Prop :=
  (m.map Prod.fst).Pairwise (fun a b => a.data < b.data)

instance {β : Type} (m : StdMap β) : Decidable (Ordered m) := by
  unfold Ordered; infer_instance

/-- Key lookup, `m.find(k)`. -/
def find? {β : Type} : StdMap β → String → Option β
  | [], _ => none
  | (k', v) :: rest, k => if k = k' then some v else find? rest k

/-- The assignment `m[k] = v`: overwrite the entry of `k`, or insert a new
entry at its place in the key order. -/
def assign {β : Type} : StdMap β → String → β → StdMap β
  | [], k, v => [(k, v)]
  | (k', v') :: rest, k, v =>
    if k.data < k'.data then (k, v) :: (k', v') :: rest
    else if k = k' then (k, v) :: rest
    else (k', v') :: assign rest k v

/-- The reference `m[k]` read: the stored value, or a default-constructed one
when the key is absent. -/
def getOrDefault {β : Type} (m : StdMap β) (k : String) (dflt : β) : β :=
  (find? m k).getD dflt

end StdMap

/-! ## `DriverInfo` -/

/-- The private members of `class DriverInfo`. -/
structure DriverInfo where
  fileName : String
  entry_points : StdMap (StdMap String)
deriving DecidableEq

namespace DriverInfo

/-- A freshly constructed `DriverInfo` whose file was set to `fn`. -/
def init (fn : String) : DriverInfo := ⟨fn, []⟩

/-- The setter `SetFile`. -/
def SetFile (di : DriverInfo) (fn : String) : DriverInfo :=
  ⟨fn, di.entry_points⟩

/-- The getter `GetFile`. -/
def GetFile (di : DriverInfo) : String := di.fileName

/-- The method `AddEntryPoint`: `entry_points[type][funcname] = entrypoint`. -/
def AddEntryPoint (di : DriverInfo) (type funcname entrypoint : String) : DriverInfo :=
  ⟨di.fileName,
    StdMap.assign di.entry_points type
      (StdMap.assign (StdMap.getOrDefault di.entry_points type []) funcname entrypoint)⟩

/-- The method `existsEntryPointWithName`: the two nested loops with their `break`s. -/
def existsEntryPointWithName (di : DriverInfo) (name : String) : Bool :=
  di.entry_points.any (fun i => i.2.any (fun j => name == j.2))

/-- The method `PrintDriverInfo`: the string `output` that is written to the report
file. -/
def PrintDriverInfo (di : DriverInfo) : String :=
  di.entry_points.foldl
    (fun output i =>
      let output := output ++ ("<" ++ i.1 ++ ">\n")
      let output := i.2.foldl (fun output j => output ++ (j.1 ++ "::" ++ j.2 ++ "\n")) output
      output ++ "</>\n")
    ""

/-- The function name stored for the pair `(type, field)`, if any. -/
def lookup (di : DriverInfo) (type field : String) : Option String :=
  (di.entry_points.find? type).bind (fun fields => fields.find? field)

/-- The invariant of every registry the plugin can build: both map levels are
in key order, and a type is present only with at least one field, because
`AddEntryPoint` is the only writer. -/
def Valid (di : DriverInfo) : Prop :=
  di.entry_points.Ordered ∧ ∀ e ∈ di.entry_points, StdMap.Ordered e.2 ∧ e.2 ≠ []

instance (di : DriverInfo) : Decidable (Valid di) := by
  unfold Valid; infer_instance

/-- The number of registered `(type, field)` pairs. -/
def numPairs (di : DriverInfo) : Nat :=
  (di.entry_points.map (fun e => e.2.length)).sum

end DriverInfo

/-! ## The syntax tree handed to the visitors -/

/-- One designator of a designated initializer. -/
inductive Designator where
  | field (fieldName : String)
  | array
deriving DecidableEq

/-- The call `Designator::getFieldName()->getName()`, defined on field designators. -/
def Designator.getFieldName : Designator → Option String
  | .field n => some n
  | .array => none

/-- The expression nodes the scanner distinguishes. `DeclRefExpr` carries the
referenced name and the file name of the referenced declaration's location;
`InitListExpr` carries the children of its syntactic form. -/
inductive Stmt where
  | DeclRefExpr (name : String) (declFile : String)
  | ImplicitCastExpr (subExpr : Stmt)
  | DesignatedInitExpr (designators : List Designator) (init : Stmt)
  | InitListExpr (children : List Stmt)
  | Other (stmtClassName : String)

/-- A `VarDecl`: the name of its record type (`none` when the type is not a
record type) and its initializer (`none` when `getInit()` is null). -/
structure VarDecl where
  recordName : Option String
  init : Option Stmt

/-- The enumeration `clang::StorageClass`. -/
inductive StorageClass where
  | SC_None | SC_Extern | SC_Static | SC_PrivateExtern | SC_Auto | SC_Register
deriving DecidableEq

/-- A `FunctionDecl`: its name, storage class, the file name of its location
and the offset of `getInnerLocStart()` in that file's buffer. -/
structure FunctionDecl where
  name : String
  storageClass : StorageClass
  fileName : String
  innerLocStart : Nat

/-! ## The rewriter -/

/-- An edit requested from the clang `Rewriter`. -/
inductive Edit where
  | RemoveText (start : Nat) (length : Nat)
  | ReplaceText (start : Nat) (origLength : Nat) (newStr : String)
deriving DecidableEq

/-- The effect of one edit on a source buffer: the `length` bytes from `start`
are dropped and, for a replacement, `newStr` is put in their place. -/
def Edit.apply : Edit → List Char → List Char
  | .RemoveText start length, src => src.take start ++ src.drop (start + length)
  | .ReplaceText start origLength newStr, src =>
    src.take start ++ newStr.data ++ src.drop (start + origLength)

/-- The test `(fdFile.size() > 0) && (GetFile().find(fdFile) != string::npos)`
shared by both visitors. -/
def inTargetFile (di : DriverInfo) (fdFileWithExt : String) : Bool :=
  decide ((fdFile fdFileWithExt).data.length > 0) &&
    (find di.GetFile.data (fdFile fdFileWithExt).data).isSome

/-- The visitor `RewriteVisitor::VisitFunctionDecl`; `RW` is the list of edits recorded so
far. -/
def VisitFunctionDecl (di : DriverInfo) (RW : List Edit) (FD : FunctionDecl) : List Edit :=
  if di.existsEntryPointWithName FD.name then
    if FD.storageClass = .SC_Static then
      RW ++ [Edit.RemoveText FD.innerLocStart 7]
    else RW
  else if inTargetFile di FD.fileName then
    if FD.storageClass = .SC_Static then
      RW ++ [Edit.ReplaceText FD.innerLocStart 6 "static inline"]
    else RW
  else RW

/-! ## The scanner -/

/-- The test on the record name at the head of `VisitVarDecl`. -/
def recognizedType (n : String) : Bool :=
  n == "pci_driver" || n == "dev_pm_ops" || n == "net_device_ops" ||
  n == "ethtool_ops" || n == "test_driver"

/-- The field-name test of `VisitVarDecl`, one disjunct per source line. -/
def acceptedField (f : String) : Bool :=
  f == "probe" || f == "remove" || f == "shutdown" ||
  f == "suspend" || f == "resume" || f == "freeze" || f == "thaw" ||
  f == "poweroff" || f == "restore" || f == "runtime_suspend" ||
  f == "runtime_resume" || f == "runtime_idle" ||
  f == "ndo_open" || f == "ndo_stop" || f == "ndo_get_stats64" ||
  f == "ndo_start_xmit" || f == "ndo_tx_timeout" || f == "ndo_validate_addr" ||
  f == "ndo_change_mtu" || f == "ndo_fix_features" || f == "ndo_set_features" ||
  f == "ndo_set_mac_address" || f == "ndo_do_ioctl" || f == "ndo_set_rx_mode" ||
  f == "ndo_poll_controller" ||
  f == "get_drvinfo" || f == "get_regs_len" || f == "get_link" ||
  f == "get_settings" || f == "set_settings" || f == "get_msglevel" ||
  f == "set_msglevel" || f == "get_regs" || f == "get_wol" || f == "set_wol" ||
  f == "get_strings" || f == "get_sset_count" || f == "get_ethtool_stats" ||
  f == "get_ts_info" ||
  f == "ep1" || f == "ep2" || f == "ep2" || f == "ep4" || f == "ep5"

/-- The loop `while (!isa<DeclRefExpr>(expr)) expr = cast<ImplicitCastExpr>(expr)->getSubExpr();`
followed by `cast<DeclRefExpr>(expr)`: the referenced name and the file of the
referenced declaration. -/
def unwrapToDeclRef : Stmt → Option (String × String)
  | .DeclRefExpr name declFile => some (name, declFile)
  | .ImplicitCastExpr subExpr => unwrapToDeclRef subExpr
  | _ => none

/-- The statement `cast<ImplicitCastExpr>(DIE->getInit())->getSubExpr()`. -/
def castImplicitSubExpr : Stmt → Option Stmt
  | .ImplicitCastExpr subExpr => some subExpr
  | _ => none

/-- One iteration of the `for` loop of `VisitVarDecl` on the child `child` of
the initializer list of a variable of record type `type`. -/
def visitChild (type : String) (di : DriverInfo) (child : Stmt) : Option DriverInfo :=
  match child with
  | .DesignatedInitExpr designators init =>
    if designators.length ≠ 1 then some di
    else
      match designators.head? with
      | none => none
      | some d =>
        match d.getFieldName with
        | none => none
        | some funcname =>
          if acceptedField funcname then
            match castImplicitSubExpr init with
            | none => none
            | some expr =>
              match unwrapToDeclRef expr with
              | none => none
              | some (name, declFile) =>
                if inTargetFile di declFile then
                  some (di.AddEntryPoint type funcname name)
                else some di
          else some di
  | _ => none

/-- The `for` loop of `VisitVarDecl` over the children of the initializer
list. -/
def visitChildren (type : String) : DriverInfo → List Stmt → Option DriverInfo
  | di, [] => some di
  | di, child :: rest =>
    match visitChild type di child with
    | none => none
    | some di' => visitChildren type di' rest

/-- The visitor `FindEntryPointsVisitor::VisitVarDecl`. -/
def VisitVarDecl (di : DriverInfo) (VD : VarDecl) : Option DriverInfo :=
  match VD.recordName with
  | none => some di
  | some type =>
    if !recognizedType type then some di
    else
      match VD.init with
      | some (.InitListExpr children) => visitChildren type di children
      | _ => none

/-- The scanner pass, `FEPV.TraverseDecl`: `VisitVarDecl` on every variable
declaration of the translation unit, in traversal order. -/
def scan : List VarDecl → DriverInfo → Option DriverInfo
  | [], di => some di
  | VD :: rest, di =>
    match VisitVarDecl di VD with
    | none => none
    | some di' => scan rest di'

/-! ## Specification-side notions and example inputs -/

/-- A registry with two types, used to instantiate the statements below. -/
def exampleRegistry : DriverInfo :=
  ⟨"drivers/net/r8169.c",
    [("net_device_ops", [("ndo_open", "rtl_open"), ("ndo_stop", "rtl8169_close")]),
     ("pci_driver", [("probe", "rtl_init_one"), ("remove", "rtl_remove_one")])]⟩

/-- The text of one report line, `field::function` and a newline. -/
def reportLine (e : String × String) : String := e.1 ++ "::" ++ e.2 ++ "\n"

/-- The text of one report block: the opening marker with the type name, the
lines of the listed `(field, function)` pairs, the closing marker. -/
def reportBlock (T : String) (entries : List (String × String)) : String :=
  "<" ++ T ++ ">\n" ++ String.join (entries.map reportLine) ++ "</>\n"

/-- The report as the specification words it: the blocks of the listed types,
in the listed order, each with the lines listed for that type. -/
def specReport (types : List String) (entries : String → List (String × String)) : String :=
  String.join (types.map (fun T => reportBlock T (entries T)))

/-- The lists `types` and `entries` describe the registry as the specification
asks: `types` holds, in strictly ascending order, exactly the types with at
least one registration; for each of them `entries` holds, in strictly ascending
field order, exactly the registered `(field, function)` pairs. -/
def Describes (di : DriverInfo) (types : List String)
    (entries : String → List (String × String)) : Prop :=
  types.Pairwise (· < ·) ∧
  (∀ T, T ∈ types ↔ ∃ f fn, di.lookup T f = some fn) ∧
  (∀ T ∈ types, ((entries T).map Prod.fst).Pairwise (· < ·)) ∧
  (∀ T ∈ types, ∀ f fn, (f, fn) ∈ entries T ↔ di.lookup T f = some fn)

/-- A static entry point of `exampleRegistry`, declared at offset 0 of a header. -/
def exampleEntryPoint : FunctionDecl :=
  ⟨"rtl_open", .SC_Static, "include/linux/other.h", 0⟩

/-- A static function that is no entry point, in a file named `.c`. -/
def exampleHelper : FunctionDecl :=
  ⟨"rtl_helper", .SC_Static, ".c", 0⟩

/-- The expression `e` under `n` implicit conversions. -/
def implicitCasts : Nat → Stmt → Stmt
  | 0, e => e
  | n + 1, e => .ImplicitCastExpr (implicitCasts n e)

/-- A variable of record type `type` initialized with the list `children`. -/
def tableDecl (type : String) (children : List Stmt) : VarDecl :=
  ⟨some type, some (.InitListExpr children)⟩

/-- The field sets of the five families, as the comments inside the field test
of `VisitVarDecl` group them. -/
def familyFields (type : String) : List String :=
  if type = "pci_driver" then ["probe", "remove", "shutdown"]
  else if type = "dev_pm_ops" then
    ["suspend", "resume", "freeze", "thaw", "poweroff", "restore",
     "runtime_suspend", "runtime_resume", "runtime_idle"]
  else if type = "net_device_ops" then
    ["ndo_open", "ndo_stop", "ndo_get_stats64", "ndo_start_xmit", "ndo_tx_timeout",
     "ndo_validate_addr", "ndo_change_mtu", "ndo_fix_features", "ndo_set_features",
     "ndo_set_mac_address", "ndo_do_ioctl", "ndo_set_rx_mode", "ndo_poll_controller"]
  else if type = "ethtool_ops" then
    ["get_drvinfo", "get_regs_len", "get_link", "get_settings", "set_settings",
     "get_msglevel", "set_msglevel", "get_regs", "get_wol", "set_wol", "get_strings",
     "get_sset_count", "get_ethtool_stats", "get_ts_info"]
  else if type = "test_driver" then ["ep1", "ep2", "ep2", "ep4", "ep5"]
  else []

/-- The shapes of an initializer-list child on which one iteration of the loop
of `VisitVarDecl` passes all its casts: a designated initializer that has not
exactly one designator, or whose single field is outside the field test, or
whose expression is a direct reference under one or more implicit
conversions. -/
inductive EntryShape : Stmt → Prop where
  | notSingle (designators : List Designator) (init : Stmt) :
      designators.length ≠ 1 → EntryShape (.DesignatedInitExpr designators init)
  | otherField (f : String) (init : Stmt) :
      acceptedField f = false → EntryShape (.DesignatedInitExpr [.field f] init)
  | reference (f : String) (n : Nat) (name declFile : String) :
      EntryShape (.DesignatedInitExpr [.field f]
        (implicitCasts (n + 1) (.DeclRefExpr name declFile)))

/-- A sequence of `AddEntryPoint` calls, applied in order. -/
def addAll (di : DriverInfo) (writes : List (String × String × String)) : DriverInfo :=
  writes.foldl (fun d w => d.AddEntryPoint w.1 w.2.1 w.2.2) di

/-- A translation unit in which two tables assign `pci_driver.probe`, first to
`probe_a`, then to `probe_b`, both defined in the target file. -/
def exampleUnit : List VarDecl :=
  [tableDecl "pci_driver"
     [.DesignatedInitExpr [.field "probe"] (.ImplicitCastExpr (.DeclRefExpr "probe_a" "drv.c")),
      .DesignatedInitExpr [.field "remove"] (.ImplicitCastExpr (.DeclRefExpr "remove_a" "drv.c"))],
   ⟨none, none⟩,
   tableDecl "pci_driver"
     [.DesignatedInitExpr [.field "probe"] (.ImplicitCastExpr (.DeclRefExpr "probe_b" "drv.c"))]]

/-! ## Facts about `StdMap` -/

namespace StdMap

variable {β : Type}

theorem data_lt_iff (a b : String) : a.data < b.data ↔ a < b :=
  String.lt_iff_toList_lt.symm

theorem ordered_nil : Ordered ([] : StdMap β) := List.Pairwise.nil

theorem ordered_cons {k : String} {v : β} {m : StdMap β} :
    Ordered ((k, v) :: m) ↔ (∀ e ∈ m, k < e.1) ∧ Ordered m := by
  unfold Ordered
  rw [List.map_cons, List.pairwise_cons]
  constructor
  · rintro ⟨h1, h2⟩
    exact ⟨fun e he => (data_lt_iff _ _).1 (h1 e.1 (List.mem_map_of_mem _ he)), h2⟩
  · rintro ⟨h1, h2⟩
    refine ⟨fun a ha => ?_, h2⟩
    obtain ⟨e, he, rfl⟩ := List.mem_map.1 ha
    exact (data_lt_iff _ _).2 (h1 e he)

theorem find?_assign (m : StdMap β) (k : String) (v : β) (k' : String) :
    find? (assign m k v) k' = if k' = k then some v else find? m k' := by
  induction m with
  | nil => simp [assign, find?]
  | cons e rest ih =>
    obtain ⟨a, b⟩ := e
    simp only [assign]
    split_ifs with h1 h2 h3 h4 h5 <;> simp_all [find?]

theorem mem_assign {m : StdMap β} {k : String} {v : β} {e : String × β}
    (h : e ∈ assign m k v) : e = (k, v) ∨ e ∈ m := by
  induction m with
  | nil => simpa [assign] using h
  | cons x rest ih =>
    obtain ⟨a, b⟩ := x
    simp only [assign] at h
    split_ifs at h with h1 h2
    · simpa using h
    · rcases List.mem_cons.1 h with h | h
      · exact Or.inl h
      · exact Or.inr (List.mem_cons_of_mem _ h)
    · rcases List.mem_cons.1 h with h | h
      · exact Or.inr (h ▸ List.mem_cons_self _ _)
      · rcases ih h with h | h
        · exact Or.inl h
        · exact Or.inr (List.mem_cons_of_mem _ h)

theorem assign_ne_nil (m : StdMap β) (k : String) (v : β) : assign m k v ≠ [] := by
  cases m with
  | nil => simp [assign]
  | cons x rest =>
    obtain ⟨a, b⟩ := x
    simp only [assign]
    split_ifs <;> simp

theorem ordered_assign {m : StdMap β} (hm : Ordered m) (k : String) (v : β) :
    Ordered (assign m k v) := by
  induction m with
  | nil => exact ordered_cons.2 ⟨by simp, ordered_nil⟩
  | cons x rest ih =>
    obtain ⟨a, b⟩ := x
    obtain ⟨h1, h2⟩ := ordered_cons.1 hm
    simp only [assign]
    split_ifs with c1 c2
    · rw [data_lt_iff] at c1
      refine ordered_cons.2 ⟨fun e he => ?_, hm⟩
      rcases List.mem_cons.1 he with rfl | he
      · exact c1
      · exact lt_trans c1 (h1 e he)
    · subst c2
      exact ordered_cons.2 ⟨h1, h2⟩
    · rw [data_lt_iff] at c1
      have hak : a < k := lt_of_le_of_ne (not_lt.1 c1) (fun h => c2 h.symm)
      refine ordered_cons.2 ⟨fun e he => ?_, ih h2⟩
      rcases mem_assign he with rfl | he
      · exact hak
      · exact h1 e he

theorem find?_eq_none {m : StdMap β} {k : String} :
    find? m k = none ↔ ∀ e ∈ m, e.1 ≠ k := by
  induction m with
  | nil => simp [find?]
  | cons x rest ih =>
    obtain ⟨a, b⟩ := x
    simp only [find?]
    split_ifs with h
    · subst h; simp
    · simp [ih, Ne.symm h]

theorem find?_eq_some {m : StdMap β} (hm : Ordered m) {k : String} {v : β} :
    find? m k = some v ↔ (k, v) ∈ m := by
  induction m with
  | nil => simp [find?]
  | cons x rest ih =>
    obtain ⟨a, b⟩ := x
    obtain ⟨h1, h2⟩ := ordered_cons.1 hm
    simp only [find?]
    split_ifs with h
    · subst h
      constructor
      · intro hv
        cases hv
        exact List.mem_cons_self _ _
      · intro hv
        rcases List.mem_cons.1 hv with hv | hv
        · cases hv; rfl
        · exact absurd (h1 _ hv) (lt_irrefl _)
    · rw [ih h2]
      constructor
      · exact fun hv => List.mem_cons_of_mem _ hv
      · intro hv
        rcases List.mem_cons.1 hv with hv | hv
        · cases hv; exact absurd rfl h
        · exact hv

/-- Two entry lists with strictly ascending keys and the same members are the
same list. -/
theorem eq_of_mem_iff {l l' : List (String × β)}
    (hl : (l.map Prod.fst).Pairwise (· < ·)) (hl' : (l'.map Prod.fst).Pairwise (· < ·))
    (hmem : ∀ e, e ∈ l ↔ e ∈ l') : l = l' := by
  have nd : ∀ x : List (String × β), (x.map Prod.fst).Pairwise (· < ·) → x.Nodup :=
    fun x hx => List.Nodup.of_map _ (List.Sorted.nodup hx)
  have hperm : l.Perm l' := (List.perm_ext_iff_of_nodup (nd l hl) (nd l' hl')).2 hmem
  haveI : IsAntisymm (String × β) (fun a b => a.1 < b.1) :=
    ⟨fun a b h1 h2 => absurd (lt_trans h1 h2) (lt_irrefl _)⟩
  exact List.eq_of_perm_of_sorted hperm (List.pairwise_map.1 hl) (List.pairwise_map.1 hl')

theorem ordered_iff (m : StdMap β) : Ordered m ↔ (m.map Prod.fst).Pairwise (· < ·) :=
  ⟨fun h => List.Pairwise.imp (fun h => (data_lt_iff _ _).1 h) h,
   fun h => List.Pairwise.imp (fun h => (data_lt_iff _ _).2 h) h⟩

/-- Two maps in key order with the same lookups are the same list. -/
theorem map_ext {m m' : StdMap β} (hm : Ordered m) (hm' : Ordered m')
    (h : ∀ k, find? m k = find? m' k) : m = m' := by
  refine eq_of_mem_iff ((ordered_iff m).1 hm) ((ordered_iff m').1 hm') ?_
  rintro ⟨k, v⟩
  rw [← find?_eq_some hm, ← find?_eq_some hm', h]

end StdMap

/-! ## Facts about the registry -/

namespace DriverInfo

theorem valid_init (fn : String) : (init fn).Valid :=
  ⟨StdMap.ordered_nil, by simp [init]⟩

theorem fileName_AddEntryPoint (di : DriverInfo) (type funcname entrypoint : String) :
    (di.AddEntryPoint type funcname entrypoint).fileName = di.fileName := rfl

theorem getOrDefault_ordered {di : DriverInfo} (hv : di.Valid) (type : String) :
    StdMap.Ordered (StdMap.getOrDefault di.entry_points type []) := by
  unfold StdMap.getOrDefault
  cases h : StdMap.find? di.entry_points type with
  | none => exact StdMap.ordered_nil
  | some inner => exact (hv.2 _ ((StdMap.find?_eq_some hv.1).1 h)).1

theorem valid_AddEntryPoint {di : DriverInfo} (hv : di.Valid)
    (type funcname entrypoint : String) :
    (di.AddEntryPoint type funcname entrypoint).Valid := by
  refine ⟨StdMap.ordered_assign hv.1 _ _, fun e he => ?_⟩
  rcases StdMap.mem_assign he with rfl | he
  · exact ⟨StdMap.ordered_assign (getOrDefault_ordered hv type) _ _,
      StdMap.assign_ne_nil _ _ _⟩
  · exact hv.2 e he

theorem lookup_AddEntryPoint (di : DriverInfo) (type funcname entrypoint T f : String) :
    (di.AddEntryPoint type funcname entrypoint).lookup T f =
      if T = type ∧ f = funcname then some entrypoint else di.lookup T f := by
  unfold lookup AddEntryPoint
  simp only [StdMap.find?_assign]
  by_cases hT : T = type
  · subst hT
    simp only [if_true, Option.some_bind, StdMap.find?_assign, true_and]
    by_cases hf : f = funcname
    · simp [hf]
    · simp only [hf, if_false, StdMap.getOrDefault]
      cases StdMap.find? di.entry_points T <;> simp [StdMap.find?]
  · simp [hT]

theorem lookup_eq_some {di : DriverInfo} (hv : di.Valid) {T f name : String} :
    di.lookup T f = some name ↔
      ∃ inner, (T, inner) ∈ di.entry_points ∧ (f, name) ∈ inner := by
  unfold lookup
  constructor
  · intro h
    cases hT : StdMap.find? di.entry_points T with
    | none => simp [hT] at h
    | some inner =>
      rw [hT, Option.some_bind] at h
      have hmem := (StdMap.find?_eq_some hv.1).1 hT
      exact ⟨inner, hmem, (StdMap.find?_eq_some (hv.2 _ hmem).1).1 h⟩
  · rintro ⟨inner, h1, h2⟩
    rw [(StdMap.find?_eq_some hv.1).2 h1, Option.some_bind]
    exact (StdMap.find?_eq_some (hv.2 _ h1).1).2 h2

/-- Two valid registries for the same file with the same `lookup` are equal. -/
theorem registry_ext {d d' : DriverInfo} (hv : d.Valid) (hv' : d'.Valid)
    (hf : d.fileName = d'.fileName) (h : ∀ T f, d.lookup T f = d'.lookup T f) : d = d' := by
  have key : ∀ a b : DriverInfo, a.Valid → b.Valid →
      (∀ T f, a.lookup T f = b.lookup T f) → ∀ T inner,
      StdMap.find? a.entry_points T = some inner →
      StdMap.find? b.entry_points T = some inner := by
    intro a b ha hb hab T inner hfind
    have hmem := (StdMap.find?_eq_some ha.1).1 hfind
    obtain ⟨hord, hne⟩ := ha.2 _ hmem
    obtain ⟨⟨f0, n0⟩, rest, hcons⟩ := List.exists_cons_of_ne_nil hne
    have hcons' : inner = (f0, n0) :: rest := hcons
    have h0 : a.lookup T f0 = some n0 :=
      (lookup_eq_some ha).2 ⟨inner, hmem, hcons' ▸ List.mem_cons_self _ _⟩
    rw [hab] at h0
    obtain ⟨inner', hmem', -⟩ := (lookup_eq_some hb).1 h0
    have hfind' := (StdMap.find?_eq_some hb.1).2 hmem'
    rw [hfind']
    congr 1
    refine StdMap.map_ext (hb.2 _ hmem').1 hord (fun k => ?_)
    have := hab T k
    simp only [lookup, hfind, hfind', Option.some_bind] at this
    exact this.symm
  have heq : d.entry_points = d'.entry_points := by
    refine StdMap.map_ext hv.1 hv'.1 (fun T => ?_)
    cases h1 : StdMap.find? d.entry_points T with
    | some inner => exact (key d d' hv hv' h T inner h1).symm
    | none =>
      cases h2 : StdMap.find? d'.entry_points T with
      | none => rfl
      | some inner' =>
        have := key d' d hv' hv (fun T f => (h T f).symm) T inner' h2
        rw [h1] at this
        cases this
  cases d
  cases d'
  simp only at hf heq
  subst hf
  subst heq
  rfl

theorem existsEntryPointWithName_eq_true {di : DriverInfo} (hv : di.Valid) (name : String) :
    di.existsEntryPointWithName name = true ↔ ∃ T f, di.lookup T f = some name := by
  unfold existsEntryPointWithName
  simp only [List.any_eq_true, beq_iff_eq]
  constructor
  · rintro ⟨⟨T, inner⟩, h1, ⟨f, n⟩, h2, rfl⟩
    exact ⟨T, f, (lookup_eq_some hv).2 ⟨inner, h1, h2⟩⟩
  · rintro ⟨T, f, h⟩
    obtain ⟨inner, h1, h2⟩ := (lookup_eq_some hv).1 h
    exact ⟨(T, inner), h1, (f, name), h2, rfl⟩

end DriverInfo

/-! ## C1: membership query by function name -/

/-- C1: on every valid registry, `existsEntryPointWithName name` is true exactly
when some `(type, field)` pair is mapped to `name`; it is false on the empty
registry, and false for every name that is not a stored function-name value,
whether or not that name is a type key or a field key. -/
theorem existsEntryPointWithName_spec (di : DriverInfo) (hv : di.Valid) (name : String) :
    (di.existsEntryPointWithName name = true ↔ ∃ T f, di.lookup T f = some name) ∧
    (DriverInfo.init di.fileName).existsEntryPointWithName name = false ∧
    ((∀ T f, di.lookup T f ≠ some name) → di.existsEntryPointWithName name = false) := by
  refine ⟨DriverInfo.existsEntryPointWithName_eq_true hv name, rfl, fun h => ?_⟩
  cases hb : di.existsEntryPointWithName name with
  | false => rfl
  | true =>
    obtain ⟨T, f, hl⟩ := (DriverInfo.existsEntryPointWithName_eq_true hv name).1 hb
    exact absurd hl (h T f)

/-- C1 at `exampleRegistry` and the name `pci_driver`, a type key that is not a
stored function name. -/
theorem existsEntryPointWithName_spec_witness :
    exampleRegistry.Valid ∧
    ((exampleRegistry.existsEntryPointWithName "pci_driver" = true ↔
        ∃ T f, exampleRegistry.lookup T f = some "pci_driver") ∧
      (DriverInfo.init exampleRegistry.fileName).existsEntryPointWithName "pci_driver" = false ∧
      ((∀ T f, exampleRegistry.lookup T f ≠ some "pci_driver") →
        exampleRegistry.existsEntryPointWithName "pci_driver" = false)) :=
  ⟨by decide, existsEntryPointWithName_spec exampleRegistry (by decide) "pci_driver"⟩

/-! ## C2: the entry-point report -/

theorem foldl_append_eq (l : List String) (acc : String) :
    l.foldl (fun r s => r ++ s) acc = acc ++ String.join l := by
  induction l generalizing acc with
  | nil => simp [String.join]
  | cons x xs ih =>
    rw [List.foldl_cons, ih]
    unfold String.join
    rw [List.foldl_cons, ih ("" ++ x), String.empty_append, String.append_assoc]
    rfl

theorem join_cons (x : String) (xs : List String) :
    String.join (x :: xs) = x ++ String.join xs := by
  unfold String.join
  rw [List.foldl_cons, foldl_append_eq, String.empty_append]
  rfl

theorem foldl_lines_eq (l : List (String × String)) (acc : String) :
    l.foldl (fun output j => output ++ (j.1 ++ "::" ++ j.2 ++ "\n")) acc =
      acc ++ String.join (l.map reportLine) := by
  induction l generalizing acc with
  | nil => simp [String.join]
  | cons x xs ih =>
    rw [List.foldl_cons, ih, List.map_cons, join_cons, String.append_assoc]
    rfl

theorem foldl_blocks_eq (l : StdMap (StdMap String)) (acc : String) :
    l.foldl
      (fun output i =>
        let output := output ++ ("<" ++ i.1 ++ ">\n")
        let output := i.2.foldl (fun output j => output ++ (j.1 ++ "::" ++ j.2 ++ "\n")) output
        output ++ "</>\n") acc =
      acc ++ String.join (l.map (fun i => reportBlock i.1 i.2)) := by
  induction l generalizing acc with
  | nil => simp [String.join]
  | cons x xs ih =>
    rw [List.foldl_cons, ih, List.map_cons, join_cons]
    simp only [foldl_lines_eq]
    simp only [reportBlock, String.append_assoc]

theorem PrintDriverInfo_eq (di : DriverInfo) :
    di.PrintDriverInfo = String.join (di.entry_points.map (fun i => reportBlock i.1 i.2)) := by
  unfold DriverInfo.PrintDriverInfo
  rw [foldl_blocks_eq, String.empty_append]

theorem mem_keys_iff {di : DriverInfo} (hv : di.Valid) (T : String) :
    T ∈ di.entry_points.map Prod.fst ↔ ∃ f fn, di.lookup T f = some fn := by
  constructor
  · intro h
    obtain ⟨⟨T', inner⟩, hmem, rfl⟩ := List.mem_map.1 h
    obtain ⟨⟨f, fn⟩, rest, hcons⟩ := List.exists_cons_of_ne_nil (hv.2 _ hmem).2
    have hcons' : inner = (f, fn) :: rest := hcons
    exact ⟨f, fn, (DriverInfo.lookup_eq_some hv).2 ⟨inner, hmem, hcons' ▸ List.mem_cons_self _ _⟩⟩
  · rintro ⟨f, fn, h⟩
    obtain ⟨inner, hmem, -⟩ := (DriverInfo.lookup_eq_some hv).1 h
    exact List.mem_map.2 ⟨(T, inner), hmem, rfl⟩

theorem mem_inner_iff {di : DriverInfo} (hv : di.Valid) {T : String} {inner : StdMap String}
    (hmem : (T, inner) ∈ di.entry_points) (f fn : String) :
    (f, fn) ∈ inner ↔ di.lookup T f = some fn := by
  rw [DriverInfo.lookup, (StdMap.find?_eq_some hv.1).2 hmem, Option.some_bind,
    StdMap.find?_eq_some (hv.2 _ hmem).1]

/-- The entries of a valid registry, read off in iteration order, describe it. -/
theorem describes_entry_points {di : DriverInfo} (hv : di.Valid) :
    Describes di (di.entry_points.map Prod.fst)
      (fun T => StdMap.getOrDefault di.entry_points T []) := by
  have hget : ∀ T ∈ di.entry_points.map Prod.fst,
      (T, StdMap.getOrDefault di.entry_points T []) ∈ di.entry_points := by
    intro T hT
    obtain ⟨⟨T', inner⟩, hmem, rfl⟩ := List.mem_map.1 hT
    have := (StdMap.find?_eq_some hv.1).2 hmem
    simpa [StdMap.getOrDefault, this] using hmem
  refine ⟨(StdMap.ordered_iff _).1 hv.1, mem_keys_iff hv, fun T hT => ?_, fun T hT f fn => ?_⟩
  · exact (StdMap.ordered_iff _).1 (hv.2 _ (hget T hT)).1
  · exact mem_inner_iff hv (hget T hT) f fn

theorem PrintDriverInfo_eq_specReport {di : DriverInfo} (hv : di.Valid) {types : List String}
    {entries : String → List (String × String)} (hd : Describes di types entries) :
    di.PrintDriverInfo = specReport types entries := by
  obtain ⟨h1, h2, h3, h4⟩ := hd
  have hkeys : types = di.entry_points.map Prod.fst := by
    have hperm : types.Perm (di.entry_points.map Prod.fst) :=
      (List.perm_ext_iff_of_nodup (List.Sorted.nodup h1)
        (List.Sorted.nodup ((StdMap.ordered_iff _).1 hv.1))).2
        (fun T => by rw [h2, mem_keys_iff hv])
    exact List.eq_of_perm_of_sorted hperm h1 ((StdMap.ordered_iff _).1 hv.1)
  rw [PrintDriverInfo_eq, specReport, hkeys, List.map_map]
  congr 1
  refine List.map_congr_left (fun i hi => ?_)
  obtain ⟨T, inner⟩ := i
  have hT : T ∈ types := hkeys ▸ List.mem_map.2 ⟨(T, inner), hi, rfl⟩
  have : entries T = inner :=
    StdMap.eq_of_mem_iff (h3 T hT) ((StdMap.ordered_iff _).1 (hv.2 _ hi).1)
      (fun e => by
        obtain ⟨f, fn⟩ := e
        rw [h4 T hT, mem_inner_iff hv hi])
  simp [this]

/-- C2: on every valid registry the report built by `PrintDriverInfo` is the
concatenation, over the types with at least one registration in ascending
order, of the block made of the opening line with the type name, one line
`field::function` per registered field in ascending field order, and the
closing line. Such a description of the registry always exists; in it every
registered triple is listed exactly once under its type and every listed line is
a registered triple. The empty registry gives the empty report. -/
theorem PrintDriverInfo_spec (di : DriverInfo) (hv : di.Valid) :
    (∃ types entries, Describes di types entries) ∧
    (∀ types entries, Describes di types entries →
      di.PrintDriverInfo = specReport types entries ∧
      (∀ T f fn, di.lookup T f = some fn → T ∈ types ∧
        (entries T).countP (fun e => decide (e = (f, fn))) = 1) ∧
      (∀ T ∈ types, ∀ e ∈ entries T, di.lookup T e.1 = some e.2)) ∧
    (DriverInfo.init di.fileName).PrintDriverInfo = "" := by
  refine ⟨⟨_, _, describes_entry_points hv⟩, fun types entries hd => ?_, rfl⟩
  refine ⟨PrintDriverInfo_eq_specReport hv hd, fun T f fn h => ?_, fun T hT e he => ?_⟩
  · have hT : T ∈ types := (hd.2.1 T).2 ⟨f, fn, h⟩
    have hnd : (entries T).Nodup := List.Nodup.of_map _ (List.Sorted.nodup (hd.2.2.1 T hT))
    exact ⟨hT, List.count_eq_one_of_mem hnd ((hd.2.2.2 T hT f fn).2 h)⟩
  · exact (hd.2.2.2 T hT e.1 e.2).1 he

/-- C2 at `exampleRegistry`. -/
theorem PrintDriverInfo_spec_witness :
    exampleRegistry.Valid ∧
    ((∃ types entries, Describes exampleRegistry types entries) ∧
    (∀ types entries, Describes exampleRegistry types entries →
      exampleRegistry.PrintDriverInfo = specReport types entries ∧
      (∀ T f fn, exampleRegistry.lookup T f = some fn →
        T ∈ types ∧
        (entries T).countP (fun e => decide (e = (f, fn))) = 1) ∧
      (∀ T ∈ types, ∀ e ∈ entries T, exampleRegistry.lookup T e.1 = some e.2)) ∧
    (DriverInfo.init exampleRegistry.fileName).PrintDriverInfo = "") :=
  ⟨by decide, PrintDriverInfo_spec exampleRegistry (by decide)⟩

/-- The report text of `exampleRegistry`, evaluated. -/
theorem PrintDriverInfo_exampleRegistry :
    exampleRegistry.PrintDriverInfo =
      "<net_device_ops>\nndo_open::rtl_open\nndo_stop::rtl8169_close\n</>\n" ++
      "<pci_driver>\nprobe::rtl_init_one\nremove::rtl_remove_one\n</>\n" := by
  decide

/-! ## Facts about the string operations -/

theorem find_last_of_eq_none {s : List Char} {c : Char} :
    find_last_of s c = none ↔ c ∉ s := by
  induction s with
  | nil => simp [find_last_of]
  | cons x xs ih =>
    simp only [find_last_of]
    cases h : find_last_of xs c with
    | some i =>
      have : ¬ c ∉ xs := fun hc => by rw [ih.2 hc] at h; cases h
      simp only [List.mem_cons, not_or]
      constructor
      · intro h'; cases h'
      · intro h'; exact absurd h'.2 this
    | none =>
      have hc := ih.1 h
      by_cases hx : x = c
      · subst hx; simp
      · simp [hx, hc, Ne.symm hx]

theorem find_last_of_append {a b : List Char} {c : Char} (hb : c ∉ b) :
    find_last_of (a ++ c :: b) c = some a.length := by
  induction a with
  | nil => simp [find_last_of, find_last_of_eq_none.2 hb]
  | cons x xs ih => simp [find_last_of, ih]

theorem find_isSome_iff (hay needle : List Char) :
    (find hay needle).isSome = true ↔ needle <:+: hay := by
  induction hay with
  | nil =>
    simp only [find, List.infix_nil]
    split_ifs with h <;> simp [h]
  | cons h hay ih =>
    simp only [find, List.infix_cons_iff]
    split_ifs with hp
    · simp [List.isPrefixOf_iff_prefix.1 hp]
    · have hp' : ¬ needle <+: h :: hay := fun hh => hp (List.isPrefixOf_iff_prefix.2 hh)
      simp only [Option.isSome_map', ih, hp', false_or]

theorem fdFile_of_last_dot {p : String} {a b : List Char}
    (hp : p.data = a ++ '.' :: b) (hb : '.' ∉ b) : fdFile p = ⟨a⟩ := by
  unfold fdFile
  rw [hp, find_last_of_append hb]
  simp

theorem fdFile_of_no_dot {p : String} (hp : '.' ∉ p.data) : fdFile p = p := by
  unfold fdFile
  rw [find_last_of_eq_none.2 hp]

theorem inTargetFile_iff (di : DriverInfo) (fdFileWithExt : String) :
    inTargetFile di fdFileWithExt = true ↔
      fdFile fdFileWithExt ≠ "" ∧ (fdFile fdFileWithExt).data <:+: di.fileName.data := by
  unfold inTargetFile DriverInfo.GetFile
  rw [Bool.and_eq_true, find_isSome_iff, decide_eq_true_iff]
  refine and_congr_left (fun _ => ?_)
  rw [gt_iff_lt, List.length_pos, Ne, Ne, String.ext_iff]

/-! ## C10: the file stem -/

/-- C10 (as the code has it): the stem of `p` is `p` up to, and excluding, the
last `.` of the whole path string, whichever component holds it, and `p` itself
only when `p` has no `.` at all. When the final component has a `.` this is
that component's last `.`. The stem of `a.b/c` is `a`; the stem of `dir/foo.c`
is `dir/foo`. -/
theorem fdFile_spec (p : String) :
    (∀ a b : List Char, p.data = a ++ '.' :: b → '.' ∉ b → fdFile p = ⟨a⟩) ∧
    ('.' ∉ p.data → fdFile p = p) ∧
    (∀ dir c₁ c₂ : List Char, p.data = dir ++ (c₁ ++ '.' :: c₂) →
      '/' ∉ c₁ ++ '.' :: c₂ → '.' ∉ c₂ → fdFile p = ⟨dir ++ c₁⟩) ∧
    fdFile "a.b/c" = "a" ∧ fdFile "dir/foo.c" = "dir/foo" := by
  refine ⟨fun a b hp hb => fdFile_of_last_dot hp hb, fdFile_of_no_dot, ?_, by decide, by decide⟩
  intro dir c₁ c₂ hp _ hb
  exact fdFile_of_last_dot (by rw [hp, List.append_assoc]) hb

/-- C10 fails as stated: the final component `c` of `a.b/c` has no `.`, yet the
stem of `a.b/c` is `a`, not `a.b/c`. -/
theorem fdFile_dotted_directory_counterexample :
    "a.b/c".data = "a.b/".data ++ "c".data ∧ '/' ∉ "c".data ∧ '.' ∉ "c".data ∧
    fdFile "a.b/c" = "a" ∧ fdFile "a.b/c" ≠ "a.b/c" := by
  decide

/-! ## C3 and C4: the linkage rewriter -/

theorem removeText_apply (pre mid post : List Char) :
    (Edit.RemoveText pre.length mid.length).apply (pre ++ mid ++ post) = pre ++ post := by
  simp [Edit.apply, List.take_append_eq_append_take, List.drop_append_eq_append_drop]

theorem replaceText_apply (pre mid post : List Char) (newStr : String) :
    (Edit.ReplaceText pre.length mid.length newStr).apply (pre ++ mid ++ post) =
      pre ++ newStr.data ++ post := by
  simp [Edit.apply, List.take_append_eq_append_take, List.drop_append_eq_append_drop]

/-- C3 (as the code has it): for a function whose name is a registered
function-name value, a static declaration gets exactly one edit, the removal of
7 bytes at the declaration start, which are the 6 bytes of the keyword `static`
and the one byte after it; a declaration that is not static gets no edit; and
the file that holds the declaration plays no part. -/
theorem VisitFunctionDecl_entry_point (di : DriverInfo) (RW : List Edit) (FD : FunctionDecl)
    (hreg : di.existsEntryPointWithName FD.name = true) :
    (FD.storageClass = .SC_Static →
      VisitFunctionDecl di RW FD = RW ++ [Edit.RemoveText FD.innerLocStart 7]) ∧
    (∀ (pre post : List Char) (c : Char), pre.length = FD.innerLocStart →
      (Edit.RemoveText FD.innerLocStart 7).apply (pre ++ ("static".data ++ [c]) ++ post) =
        pre ++ post) ∧
    (FD.storageClass ≠ .SC_Static → VisitFunctionDecl di RW FD = RW) ∧
    (∀ file : String,
      VisitFunctionDecl di RW ⟨FD.name, FD.storageClass, file, FD.innerLocStart⟩ =
        VisitFunctionDecl di RW FD) := by
  refine ⟨fun hs => ?_, fun pre post c hlen => ?_, fun hs => ?_, fun file => ?_⟩
  · simp [VisitFunctionDecl, hreg, hs]
  · rw [← hlen]
    exact removeText_apply pre ("static".data ++ [c]) post
  · simp [VisitFunctionDecl, hreg, hs]
  · simp [VisitFunctionDecl, hreg]

/-- C3 at `exampleRegistry` and `exampleEntryPoint`. -/
theorem VisitFunctionDecl_entry_point_witness :
    exampleRegistry.existsEntryPointWithName exampleEntryPoint.name = true ∧
    VisitFunctionDecl exampleRegistry [] exampleEntryPoint = [Edit.RemoveText 0 7] :=
  ⟨by decide,
   (VisitFunctionDecl_entry_point exampleRegistry [] exampleEntryPoint (by decide)).1 rfl⟩

/-- C3 fails as stated: on the text `static int rtl_open(void);` the recorded
edit leaves `int rtl_open(void);`, so it deleted the blank after the keyword as
well; deleting only the bytes of `static` would leave the blank in place. -/
theorem VisitFunctionDecl_entry_point_counterexample :
    exampleRegistry.existsEntryPointWithName exampleEntryPoint.name = true ∧
    exampleEntryPoint.storageClass = .SC_Static ∧
    VisitFunctionDecl exampleRegistry [] exampleEntryPoint = [Edit.RemoveText 0 7] ∧
    (Edit.RemoveText 0 7).apply "static int rtl_open(void);".data = "int rtl_open(void);".data ∧
    (Edit.RemoveText 0 7).apply "static int rtl_open(void);".data ≠
      (Edit.RemoveText 0 "static".length).apply "static int rtl_open(void);".data := by
  decide

/-- C4 (as the code has it): for a function whose name is not a registered
function-name value, the 6 bytes at the declaration start are replaced by
`static inline` exactly when the stem of the defining file is not empty, occurs
in the target-file string, and the storage class is static; in every other case
no edit is recorded. -/
theorem VisitFunctionDecl_not_entry_point (di : DriverInfo) (RW : List Edit) (FD : FunctionDecl)
    (hreg : di.existsEntryPointWithName FD.name = false) :
    (VisitFunctionDecl di RW FD =
        RW ++ [Edit.ReplaceText FD.innerLocStart 6 "static inline"] ↔
      fdFile FD.fileName ≠ "" ∧ (fdFile FD.fileName).data <:+: di.fileName.data ∧
        FD.storageClass = .SC_Static) ∧
    (¬ (fdFile FD.fileName ≠ "" ∧ (fdFile FD.fileName).data <:+: di.fileName.data ∧
        FD.storageClass = .SC_Static) → VisitFunctionDecl di RW FD = RW) ∧
    (∀ pre post : List Char, pre.length = FD.innerLocStart →
      (Edit.ReplaceText FD.innerLocStart 6 "static inline").apply (pre ++ "static".data ++ post) =
        pre ++ "static inline".data ++ post) := by
  have hcond := inTargetFile_iff di FD.fileName
  refine ⟨?_, ?_, fun pre post hlen => ?_⟩
  · by_cases hin : inTargetFile di FD.fileName = true
    · by_cases hs : FD.storageClass = .SC_Static
      · simp [VisitFunctionDecl, hreg, hin, hs, hcond.1 hin]
      · simp [VisitFunctionDecl, hreg, hin, hs]
    · have hn : ¬ (fdFile FD.fileName ≠ "" ∧ (fdFile FD.fileName).data <:+: di.fileName.data) :=
        fun h => hin (hcond.2 h)
      simp only [VisitFunctionDecl, hreg, hin]
      constructor
      · intro h
        simp at h
      · intro h
        exact absurd ⟨h.1, h.2.1⟩ hn
  · intro hn
    by_cases hin : inTargetFile di FD.fileName = true
    · have hs : FD.storageClass ≠ .SC_Static := fun hs =>
        hn ⟨(hcond.1 hin).1, (hcond.1 hin).2, hs⟩
      simp [VisitFunctionDecl, hreg, hin, hs]
    · simp [VisitFunctionDecl, hreg, hin]
  · rw [← hlen]
    exact replaceText_apply pre "static".data post "static inline"

/-- C4 at `exampleRegistry` and a static helper defined in the target file. -/
theorem VisitFunctionDecl_not_entry_point_witness :
    exampleRegistry.existsEntryPointWithName "rtl_helper" = false ∧
    VisitFunctionDecl exampleRegistry [] ⟨"rtl_helper", .SC_Static, "net/r8169.c", 12⟩ =
      [Edit.ReplaceText 12 6 "static inline"] :=
  ⟨by decide,
   ((VisitFunctionDecl_not_entry_point exampleRegistry []
      ⟨"rtl_helper", .SC_Static, "net/r8169.c", 12⟩ (by decide)).1).2
      ⟨by decide, by decide, rfl⟩⟩

/-- C4 fails as stated: `exampleHelper` is static, is no entry point, and the
stem of its file `.c` is the empty string, which occurs in every target-file
string; yet no edit is recorded, because the code asks for a non-empty stem. -/
theorem VisitFunctionDecl_not_entry_point_counterexample :
    exampleRegistry.existsEntryPointWithName exampleHelper.name = false ∧
    exampleHelper.storageClass = .SC_Static ∧
    (fdFile exampleHelper.fileName).data <:+: exampleRegistry.fileName.data ∧
    find exampleRegistry.GetFile.data (fdFile exampleHelper.fileName).data = some 0 ∧
    VisitFunctionDecl exampleRegistry [] exampleHelper = [] := by
  decide

/-! ## Facts about the scanner loop -/

theorem visitChild_fileName {type : String} {di d : DriverInfo} {child : Stmt}
    (h : visitChild type di child = some d) : d.fileName = di.fileName := by
  unfold visitChild at h
  split at h
  · split_ifs at h
    · cases h; rfl
    · split at h
      · cases h
      · split at h
        · cases h
        · split_ifs at h
          · split at h
            · cases h
            · split at h
              · cases h
              · split_ifs at h <;> cases h <;> rfl
          · cases h; rfl
  · cases h

theorem visitChildren_fileName {type : String} {children : List Stmt} {di d : DriverInfo}
    (h : visitChildren type di children = some d) : d.fileName = di.fileName := by
  induction children generalizing di with
  | nil => simp only [visitChildren] at h; cases h; rfl
  | cons c rest ih =>
    simp only [visitChildren] at h
    cases hc : visitChild type di c with
    | none => rw [hc] at h; cases h
    | some d' =>
      rw [hc] at h
      exact (ih h).trans (visitChild_fileName hc)

theorem visitChildren_append (type : String) (di : DriverInfo) (pre post : List Stmt) :
    visitChildren type di (pre ++ post) =
      (visitChildren type di pre).bind (fun d => visitChildren type d post) := by
  induction pre generalizing di with
  | nil => simp [visitChildren]
  | cons c rest ih =>
    simp only [List.cons_append, visitChildren]
    cases visitChild type di c with
    | none => rfl
    | some d' => exact ih d'

theorem visitChildren_cons (type : String) (di : DriverInfo) (c : Stmt) (post : List Stmt) :
    visitChildren type di (c :: post) =
      (visitChild type di c).bind (fun d => visitChildren type d post) := by
  simp only [visitChildren]
  cases visitChild type di c <;> rfl

theorem VisitVarDecl_tableDecl {type : String} (hT : recognizedType type = true)
    (di : DriverInfo) (children : List Stmt) :
    VisitVarDecl di (tableDecl type children) = visitChildren type di children := by
  simp [VisitVarDecl, tableDecl, hT]

theorem inTargetFile_congr {d d' : DriverInfo} (h : d.fileName = d'.fileName) (file : String) :
    inTargetFile d file = inTargetFile d' file := by
  simp [inTargetFile, DriverInfo.GetFile, h]

theorem unwrapToDeclRef_implicitCasts (n : Nat) (name declFile : String) :
    unwrapToDeclRef (implicitCasts n (.DeclRefExpr name declFile)) = some (name, declFile) := by
  induction n with
  | zero => rfl
  | succ n ih => simpa [implicitCasts, unwrapToDeclRef] using ih

theorem visitChild_reference (type : String) (di : DriverInfo) (f : String) (n : Nat)
    (name declFile : String) (hf : acceptedField f = true) :
    visitChild type di
        (.DesignatedInitExpr [.field f] (implicitCasts (n + 1) (.DeclRefExpr name declFile))) =
      some (if inTargetFile di declFile = true then di.AddEntryPoint type f name else di) := by
  simp only [visitChild, implicitCasts, castImplicitSubExpr, unwrapToDeclRef_implicitCasts,
    List.length_singleton, ne_eq, not_true_eq_false, if_false, List.head?_cons,
    Designator.getFieldName, hf, if_true]
  split_ifs <;> rfl

theorem visitChild_notSingle (type : String) (di : DriverInfo) (designators : List Designator)
    (init : Stmt) (h : designators.length ≠ 1) :
    visitChild type di (.DesignatedInitExpr designators init) = some di := by
  simp [visitChild, h]

theorem visitChild_otherField (type : String) (di : DriverInfo) (f : String) (init : Stmt)
    (h : acceptedField f = false) :
    visitChild type di (.DesignatedInitExpr [.field f] init) = some di := by
  simp [visitChild, Designator.getFieldName, h]

/-- Dropping a child on which the loop body returns its state unchanged does
not change the result of the visit. -/
theorem visitChildren_skip {type : String} {c : Stmt}
    (hc : ∀ d, visitChild type d c = some d) (di : DriverInfo) (pre post : List Stmt) :
    visitChildren type di (pre ++ c :: post) = visitChildren type di (pre ++ post) := by
  rw [visitChildren_append, visitChildren_append]
  congr 1
  funext d
  rw [visitChildren_cons, hc d]
  rfl

/-! ## C5: the file filter of the scanner -/

/-- C5 (as the code has it): in a variable of a recognized type, a single-field
designated initializer whose field passes the field test and whose expression
is a reference to `fn` under one or more implicit conversions makes the scanner
call `AddEntryPoint` exactly when the stem of the file of the referenced
declaration is not empty and occurs in the target-file string; otherwise the
entry leaves the registry as it was. The children before and after the entry are
processed as usual. -/
theorem VisitVarDecl_file_filter (di : DriverInfo) (T f fn declFile : String) (n : Nat)
    (pre post : List Stmt) (hT : recognizedType T = true) (hf : acceptedField f = true) :
    VisitVarDecl di (tableDecl T (pre ++
        .DesignatedInitExpr [.field f] (implicitCasts (n + 1) (.DeclRefExpr fn declFile)) ::
        post)) =
      (visitChildren T di pre).bind (fun d =>
        visitChildren T
          (if fdFile declFile ≠ "" ∧ (fdFile declFile).data <:+: di.fileName.data
            then d.AddEntryPoint T f fn else d) post) := by
  rw [VisitVarDecl_tableDecl hT, visitChildren_append]
  cases hpre : visitChildren T di pre with
  | none => rfl
  | some d =>
    simp only [Option.some_bind, visitChildren_cons, visitChild_reference T d f n fn declFile hf]
    have hfile := visitChildren_fileName hpre
    have hiff := inTargetFile_iff di declFile
    rw [inTargetFile_congr hfile declFile]
    by_cases hin : inTargetFile di declFile = true
    · rw [if_pos hin, if_pos (hiff.1 hin)]
    · rw [if_neg hin, if_neg (fun h => hin (hiff.2 h))]

/-- C5 at a `pci_driver` table whose `.probe` is a function of the target file. -/
theorem VisitVarDecl_file_filter_witness :
    recognizedType "pci_driver" = true ∧ acceptedField "probe" = true ∧
    VisitVarDecl (DriverInfo.init "drv.c") (tableDecl "pci_driver" ([] ++
        .DesignatedInitExpr [.field "probe"]
          (implicitCasts (0 + 1) (.DeclRefExpr "my_probe" "drv.c")) :: [])) =
      (visitChildren "pci_driver" (DriverInfo.init "drv.c") []).bind (fun d =>
        visitChildren "pci_driver"
          (if fdFile "drv.c" ≠ "" ∧ (fdFile "drv.c").data <:+: (DriverInfo.init "drv.c").fileName.data
            then d.AddEntryPoint "pci_driver" "probe" "my_probe" else d) []) :=
  ⟨by decide, by decide,
   VisitVarDecl_file_filter (DriverInfo.init "drv.c") "pci_driver" "probe" "my_probe" "drv.c" 0
     [] [] (by decide) (by decide)⟩

/-- C5 fails as stated: the referenced function is declared in the file `.c`,
whose stem is the empty string; the target-file string contains it, yet the
visit leaves the registry unchanged, where `AddEntryPoint` would change it. -/
theorem VisitVarDecl_file_filter_counterexample :
    recognizedType "pci_driver" = true ∧ acceptedField "probe" = true ∧
    (fdFile ".c").data <:+: (DriverInfo.init "drv.c").fileName.data ∧
    find (DriverInfo.init "drv.c").GetFile.data (fdFile ".c").data = some 0 ∧
    VisitVarDecl (DriverInfo.init "drv.c") (tableDecl "pci_driver"
        [.DesignatedInitExpr [.field "probe"]
          (.ImplicitCastExpr (.DeclRefExpr "my_probe" ".c"))]) =
      some (DriverInfo.init "drv.c") ∧
    (DriverInfo.init "drv.c").AddEntryPoint "pci_driver" "probe" "my_probe" ≠
      DriverInfo.init "drv.c" := by
  decide

/-! ## C6: the field test -/

theorem acceptedField_iff (f : String) :
    acceptedField f = true ↔ ∃ T, recognizedType T = true ∧ f ∈ familyFields T := by
  constructor
  · intro h
    simp only [acceptedField, Bool.or_eq_true, beq_iff_eq] at h
    repeat' rcases h with h | h
    all_goals first
      | exact ⟨"pci_driver", by decide, by decide⟩
      | exact ⟨"dev_pm_ops", by decide, by decide⟩
      | exact ⟨"net_device_ops", by decide, by decide⟩
      | exact ⟨"ethtool_ops", by decide, by decide⟩
      | exact ⟨"test_driver", by decide, by decide⟩
  · rintro ⟨T, hT, hf⟩
    simp only [recognizedType, Bool.or_eq_true, beq_iff_eq] at hT
    repeat' rcases hT with hT | hT
    all_goals simp only [familyFields, reduceIte, String.reduceEq, List.mem_cons,
      List.mem_singleton, List.not_mem_nil, or_false] at hf
    all_goals repeat' rcases hf with hf | hf
    all_goals decide

/-- C6 (as the code has it): the field test is one set for all recognized
types. In a variable of a recognized type a single-field designator is skipped
whenever its field is in none of the five families' field sets; a field of any
family is accepted in a variable of any recognized type, and then a reference
to a function of the target file is registered under the variable's own type. -/
theorem VisitVarDecl_field_test (di : DriverInfo) (T f : String)
    (hT : recognizedType T = true) :
    (acceptedField f = true ↔ ∃ T', recognizedType T' = true ∧ f ∈ familyFields T') ∧
    (acceptedField f = false → ∀ (init : Stmt) (pre post : List Stmt),
      VisitVarDecl di (tableDecl T (pre ++ .DesignatedInitExpr [.field f] init :: post)) =
        VisitVarDecl di (tableDecl T (pre ++ post))) ∧
    (acceptedField f = true → ∀ (n : Nat) (fn declFile : String),
      inTargetFile di declFile = true →
      VisitVarDecl di (tableDecl T
          [.DesignatedInitExpr [.field f] (implicitCasts (n + 1) (.DeclRefExpr fn declFile))]) =
        some (di.AddEntryPoint T f fn)) := by
  refine ⟨acceptedField_iff f, fun hf init pre post => ?_, fun hf n fn declFile hin => ?_⟩
  · rw [VisitVarDecl_tableDecl hT, VisitVarDecl_tableDecl hT]
    exact visitChildren_skip (fun d => visitChild_otherField T d f init hf) di pre post
  · rw [VisitVarDecl_tableDecl hT, visitChildren_cons, visitChild_reference T di f n fn declFile hf,
      if_pos hin]
    rfl

/-- C6 at a `test_driver` table and the field `probe` of the `pci_driver`
family. -/
theorem VisitVarDecl_field_test_witness :
    recognizedType "test_driver" = true ∧
    VisitVarDecl (DriverInfo.init "drv.c") (tableDecl "test_driver"
        [.DesignatedInitExpr [.field "probe"]
          (implicitCasts (0 + 1) (.DeclRefExpr "my_probe" "drv.c"))]) =
      some ((DriverInfo.init "drv.c").AddEntryPoint "test_driver" "probe" "my_probe") :=
  ⟨by decide,
   (VisitVarDecl_field_test (DriverInfo.init "drv.c") "test_driver" "probe" (by decide)).2.2
     (by decide) 0 "my_probe" "drv.c" (by decide)⟩

/-- C6 fails as stated: `probe` is not a field of the `test_driver` family and
`ep1` is not a field of the `pci_driver` family, yet `.probe` in a `test_driver`
variable and `.ep1` in a `pci_driver` variable are both registered. -/
theorem VisitVarDecl_field_test_counterexample :
    "probe" ∉ familyFields "test_driver" ∧ "ep1" ∉ familyFields "pci_driver" ∧
    VisitVarDecl (DriverInfo.init "drv.c") (tableDecl "test_driver"
        [.DesignatedInitExpr [.field "probe"]
          (.ImplicitCastExpr (.DeclRefExpr "my_probe" "drv.c"))]) =
      some ⟨"drv.c", [("test_driver", [("probe", "my_probe")])]⟩ ∧
    VisitVarDecl (DriverInfo.init "drv.c") (tableDecl "pci_driver"
        [.DesignatedInitExpr [.field "ep1"]
          (.ImplicitCastExpr (.DeclRefExpr "my_ep" "drv.c"))]) =
      some ⟨"drv.c", [("pci_driver", [("ep1", "my_ep")])]⟩ := by
  decide

/-! ## C9: what the scanner leaves alone -/

theorem recognizedType_iff (T : String) :
    recognizedType T = true ↔
      T ∈ ["pci_driver", "dev_pm_ops", "net_device_ops", "ethtool_ops", "test_driver"] := by
  simp only [recognizedType, Bool.or_eq_true, beq_iff_eq, List.mem_cons, List.mem_singleton,
    List.not_mem_nil, or_false, or_assoc]

/-- C9: a variable whose type is not a record type, or whose record type name
is none of the five recognized names, leaves the registry exactly as it was,
whatever its initializer (also when it has none); and in a variable of a
recognized type a designated initializer with a number of designators other
than one is stepped over: the loop body returns the registry unchanged, without
failure, and the visit gives the same result as without that child. -/
theorem VisitVarDecl_frame (di : DriverInfo) (VD : VarDecl) :
    (VD.recordName = none → VisitVarDecl di VD = some di) ∧
    (∀ T, VD.recordName = some T →
      T ∉ ["pci_driver", "dev_pm_ops", "net_device_ops", "ethtool_ops", "test_driver"] →
      VisitVarDecl di VD = some di) ∧
    (∀ (T : String) (designators : List Designator) (init : Stmt) (pre post : List Stmt),
      recognizedType T = true → designators.length ≠ 1 →
      visitChild T di (.DesignatedInitExpr designators init) = some di ∧
      VisitVarDecl di (tableDecl T (pre ++ .DesignatedInitExpr designators init :: post)) =
        VisitVarDecl di (tableDecl T (pre ++ post))) := by
  refine ⟨fun h => ?_, fun T h hT => ?_, fun T designators init pre post hT hlen => ?_⟩
  · simp [VisitVarDecl, h]
  · have hrec : recognizedType T = false := by
      cases hr : recognizedType T with
      | false => rfl
      | true => exact absurd ((recognizedType_iff T).1 hr) hT
    simp [VisitVarDecl, h, hrec]
  · refine ⟨visitChild_notSingle T di designators init hlen, ?_⟩
    rw [VisitVarDecl_tableDecl hT, VisitVarDecl_tableDecl hT]
    exact visitChildren_skip (fun d => visitChild_notSingle T d designators init hlen) di pre post

/-! ## C8: when the visit completes -/

theorem unwrapToDeclRef_eq_some :
    ∀ (e : Stmt) (name declFile : String), unwrapToDeclRef e = some (name, declFile) →
      ∃ n, e = implicitCasts n (.DeclRefExpr name declFile)
  | .DeclRefExpr a b, name, declFile, h => by
    simp only [unwrapToDeclRef, Option.some.injEq, Prod.mk.injEq] at h
    exact ⟨0, by rw [h.1, h.2]; rfl⟩
  | .ImplicitCastExpr sub, name, declFile, h => by
    simp only [unwrapToDeclRef] at h
    obtain ⟨n, hn⟩ := unwrapToDeclRef_eq_some sub name declFile h
    exact ⟨n + 1, by rw [hn]; rfl⟩
  | .DesignatedInitExpr _ _, _, _, h => by simp [unwrapToDeclRef] at h
  | .InitListExpr _, _, _, h => by simp [unwrapToDeclRef] at h
  | .Other _, _, _, h => by simp [unwrapToDeclRef] at h

theorem castImplicitSubExpr_eq_some {init e : Stmt} (h : castImplicitSubExpr init = some e) :
    init = .ImplicitCastExpr e := by
  cases init <;> simp [castImplicitSubExpr] at h
  rw [h]

theorem entryShape_of_visitChild {type : String} {di d : DriverInfo} {child : Stmt}
    (h : visitChild type di child = some d) : EntryShape child := by
  cases child with
  | DesignatedInitExpr designators init =>
    by_cases hlen : designators.length ≠ 1
    · exact EntryShape.notSingle designators init hlen
    · obtain ⟨d0, hd0⟩ := List.length_eq_one.1 (not_not.1 hlen)
      subst hd0
      cases d0 with
      | array => simp [visitChild, Designator.getFieldName] at h
      | field f =>
        cases hf : acceptedField f with
        | false => exact EntryShape.otherField f init hf
        | true =>
          cases hc : castImplicitSubExpr init with
          | none => simp [visitChild, Designator.getFieldName, hf, hc] at h
          | some e =>
            cases hu : unwrapToDeclRef e with
            | none => simp [visitChild, Designator.getFieldName, hf, hc, hu] at h
            | some r =>
              obtain ⟨name, declFile⟩ := r
              obtain ⟨n, hn⟩ := unwrapToDeclRef_eq_some e name declFile hu
              rw [castImplicitSubExpr_eq_some hc, hn]
              exact EntryShape.reference f n name declFile
  | DeclRefExpr _ _ => simp [visitChild] at h
  | ImplicitCastExpr _ => simp [visitChild] at h
  | InitListExpr _ => simp [visitChild] at h
  | Other _ => simp [visitChild] at h

/-- On a child of one of the three shapes the loop body succeeds, and what it
does to the registry is a fixed list of `AddEntryPoint` calls for all states
with the same target file. -/
theorem visitChild_of_entryShape (type : String) (di : DriverInfo) {child : Stmt}
    (h : EntryShape child) :
    ∃ ws, ∀ d, d.fileName = di.fileName → visitChild type d child = some (addAll d ws) := by
  cases h with
  | notSingle designators init hlen =>
    exact ⟨[], fun d _ => visitChild_notSingle type d designators init hlen⟩
  | otherField f init hf =>
    exact ⟨[], fun d _ => visitChild_otherField type d f init hf⟩
  | reference f n name declFile =>
    cases hf : acceptedField f with
    | false => exact ⟨[], fun d _ => visitChild_otherField type d f _ hf⟩
    | true =>
      by_cases hin : inTargetFile di declFile = true
      · refine ⟨[(type, f, name)], fun d hd => ?_⟩
        rw [visitChild_reference type d f n name declFile hf, inTargetFile_congr hd, if_pos hin]
        rfl
      · refine ⟨[], fun d hd => ?_⟩
        rw [visitChild_reference type d f n name declFile hf, inTargetFile_congr hd, if_neg hin]
        rfl

theorem addAll_fileName (di : DriverInfo) (ws : List (String × String × String)) :
    (addAll di ws).fileName = di.fileName := by
  induction ws generalizing di with
  | nil => rfl
  | cons w rest ih =>
    simp only [addAll, List.foldl_cons]
    exact (ih _).trans (DriverInfo.fileName_AddEntryPoint di _ _ _)

theorem addAll_append (di : DriverInfo) (ws₁ ws₂ : List (String × String × String)) :
    addAll di (ws₁ ++ ws₂) = addAll (addAll di ws₁) ws₂ := by
  simp [addAll, List.foldl_append]

theorem visitChildren_of_entryShape (type : String) (di : DriverInfo) {children : List Stmt}
    (h : ∀ c ∈ children, EntryShape c) :
    ∃ ws, ∀ d, d.fileName = di.fileName →
      visitChildren type d children = some (addAll d ws) := by
  induction children with
  | nil => exact ⟨[], fun d _ => rfl⟩
  | cons c rest ih =>
    obtain ⟨ws₁, h₁⟩ := visitChild_of_entryShape type di (h c (List.mem_cons_self _ _))
    obtain ⟨ws₂, h₂⟩ := ih (fun x hx => h x (List.mem_cons_of_mem _ hx))
    refine ⟨ws₁ ++ ws₂, fun d hd => ?_⟩
    rw [visitChildren_cons, h₁ d hd, Option.some_bind,
      h₂ _ ((addAll_fileName d ws₁).trans hd), addAll_append]

theorem entryShape_of_visitChildren {type : String} {children : List Stmt} {di d : DriverInfo}
    (h : visitChildren type di children = some d) : ∀ c ∈ children, EntryShape c := by
  induction children generalizing di with
  | nil => intro c hc; cases hc
  | cons x rest ih =>
    rw [visitChildren_cons] at h
    cases hx : visitChild type di x with
    | none => rw [hx] at h; cases h
    | some d' =>
      rw [hx, Option.some_bind] at h
      intro c hc
      rcases List.mem_cons.1 hc with rfl | hc
      · exact entryShape_of_visitChild hx
      · exact ih h c hc

theorem visitChildren_isSome_iff (type : String) (di : DriverInfo) (children : List Stmt) :
    (visitChildren type di children).isSome = true ↔ ∀ c ∈ children, EntryShape c := by
  constructor
  · intro h
    obtain ⟨d, hd⟩ := Option.isSome_iff_exists.1 h
    exact entryShape_of_visitChildren hd
  · intro h
    obtain ⟨ws, hws⟩ := visitChildren_of_entryShape type di h
    rw [hws di rfl]
    rfl

theorem not_entryShape_of_not_reference {f : String} {e : Stmt} (hf : acceptedField f = true)
    (he : ∀ n name declFile, e ≠ implicitCasts (n + 1) (.DeclRefExpr name declFile)) :
    ¬ EntryShape (.DesignatedInitExpr [.field f] e) := by
  intro h
  cases h with
  | notSingle _ _ hlen => exact hlen rfl
  | otherField _ _ hf' => rw [hf] at hf'; cases hf'
  | reference _ n name declFile => exact he n name declFile rfl

theorem VisitVarDecl_isSome_iff (di : DriverInfo) (T : String) (init : Option Stmt)
    (hT : recognizedType T = true) :
    (VisitVarDecl di ⟨some T, init⟩).isSome = true ↔
      ∃ children, init = some (.InitListExpr children) ∧ ∀ c ∈ children, EntryShape c := by
  constructor
  · intro h
    cases init with
    | none => simp [VisitVarDecl, hT] at h
    | some e =>
      cases e with
      | InitListExpr children =>
        refine ⟨children, rfl, ?_⟩
        have h' : (VisitVarDecl di (tableDecl T children)).isSome = true := h
        rw [VisitVarDecl_tableDecl hT] at h'
        exact (visitChildren_isSome_iff T di children).1 h'
      | DeclRefExpr _ _ => simp [VisitVarDecl, hT] at h
      | ImplicitCastExpr _ => simp [VisitVarDecl, hT] at h
      | DesignatedInitExpr _ _ => simp [VisitVarDecl, hT] at h
      | Other _ => simp [VisitVarDecl, hT] at h
  · rintro ⟨children, rfl, h⟩
    have : (VisitVarDecl di (tableDecl T children)).isSome = true := by
      rw [VisitVarDecl_tableDecl hT]
      exact (visitChildren_isSome_iff T di children).2 h
    exact this

/-- C8 (as the code has it): the visit of a variable of a recognized type
completes exactly when the initializer is an initializer list all of whose
children are designated initializers that either have not exactly one
designator, or name a field outside the field test, or hold a direct reference
under one or more implicit conversions. A child of the first two kinds is
stepped over, and the visit gives the same result as without it. A child of any
other shape makes a cast fail and the visit of the whole declaration with it; so
does a single-field entry with an accepted field whose expression is not a
direct reference under at least one implicit conversion. -/
theorem VisitVarDecl_completes_iff (di : DriverInfo) (T : String) (init : Option Stmt)
    (hT : recognizedType T = true) :
    ((VisitVarDecl di ⟨some T, init⟩).isSome = true ↔
      ∃ children, init = some (.InitListExpr children) ∧ ∀ c ∈ children, EntryShape c) ∧
    (∀ (c : Stmt) (pre post : List Stmt),
      ((∃ designators e, c = .DesignatedInitExpr designators e ∧ designators.length ≠ 1) ∨
        (∃ f e, c = .DesignatedInitExpr [.field f] e ∧ acceptedField f = false)) →
      VisitVarDecl di (tableDecl T (pre ++ c :: post)) =
        VisitVarDecl di (tableDecl T (pre ++ post))) ∧
    (∀ (c : Stmt) (pre post : List Stmt), ¬ EntryShape c →
      VisitVarDecl di (tableDecl T (pre ++ c :: post)) = none) ∧
    (∀ (f : String) (e : Stmt) (pre post : List Stmt), acceptedField f = true →
      (∀ n name declFile, e ≠ implicitCasts (n + 1) (.DeclRefExpr name declFile)) →
      VisitVarDecl di (tableDecl T (pre ++ .DesignatedInitExpr [.field f] e :: post)) = none) := by
  have hfail : ∀ (c : Stmt) (pre post : List Stmt), ¬ EntryShape c →
      VisitVarDecl di (tableDecl T (pre ++ c :: post)) = none := by
    intro c pre post hc
    rw [VisitVarDecl_tableDecl hT]
    cases hr : visitChildren T di (pre ++ c :: post) with
    | none => rfl
    | some d => exact absurd (entryShape_of_visitChildren hr c (by simp)) hc
  refine ⟨VisitVarDecl_isSome_iff di T init hT, ?_, hfail, fun f e pre post hf he =>
    hfail _ pre post (not_entryShape_of_not_reference hf he)⟩
  intro c pre post hc
  rw [VisitVarDecl_tableDecl hT, VisitVarDecl_tableDecl hT]
  rcases hc with ⟨designators, e, rfl, hlen⟩ | ⟨f, e, rfl, hf⟩
  · exact visitChildren_skip (fun d => visitChild_notSingle T d designators e hlen) di pre post
  · exact visitChildren_skip (fun d => visitChild_otherField T d f e hf) di pre post

/-- C8 at a `pci_driver` table whose only child has the expected shape. -/
theorem VisitVarDecl_completes_iff_witness :
    recognizedType "pci_driver" = true ∧
    (VisitVarDecl (DriverInfo.init "drv.c") ⟨some "pci_driver", some (.InitListExpr
        [.DesignatedInitExpr [.field "probe"]
          (implicitCasts (0 + 1) (.DeclRefExpr "my_probe" "drv.c"))])⟩).isSome = true :=
  ⟨by decide,
   ((VisitVarDecl_completes_iff (DriverInfo.init "drv.c") "pci_driver" _ (by decide)).1).2
     ⟨_, rfl, fun c hc => by
       rw [List.mem_singleton.1 hc]
       exact EntryShape.reference "probe" 0 "my_probe" "drv.c"⟩⟩

/-- C8 fails as stated: in a `pci_driver` variable a `.probe` entry whose
expression is a null constant, a bare reference or an address-of expression, a
child that is not a designated initializer, and a missing initializer each make
the visit fail instead of being skipped; a well-formed entry in the same
declaration does not change that. -/
theorem VisitVarDecl_completes_counterexample :
    recognizedType "pci_driver" = true ∧
    VisitVarDecl (DriverInfo.init "drv.c") (tableDecl "pci_driver"
      [.DesignatedInitExpr [.field "probe"] (.ImplicitCastExpr (.Other "ParenExpr"))]) = none ∧
    VisitVarDecl (DriverInfo.init "drv.c") (tableDecl "pci_driver"
      [.DesignatedInitExpr [.field "probe"] (.DeclRefExpr "my_probe" "drv.c")]) = none ∧
    VisitVarDecl (DriverInfo.init "drv.c") (tableDecl "pci_driver"
      [.DesignatedInitExpr [.field "probe"] (.Other "UnaryOperator")]) = none ∧
    VisitVarDecl (DriverInfo.init "drv.c") (tableDecl "pci_driver"
      [.ImplicitCastExpr (.DeclRefExpr "my_probe" "drv.c")]) = none ∧
    VisitVarDecl (DriverInfo.init "drv.c") ⟨some "pci_driver", none⟩ = none ∧
    VisitVarDecl (DriverInfo.init "drv.c") (tableDecl "pci_driver"
      [.DesignatedInitExpr [.field "remove"]
         (.ImplicitCastExpr (.DeclRefExpr "my_remove" "drv.c")),
       .DesignatedInitExpr [.field "probe"] (.ImplicitCastExpr (.Other "ParenExpr"))]) = none := by
  decide

/-! ## C7: scanning twice -/

theorem VisitVarDecl_writes {di d₁ : DriverInfo} {VD : VarDecl}
    (h : VisitVarDecl di VD = some d₁) :
    ∃ ws, ∀ d, d.fileName = di.fileName → VisitVarDecl d VD = some (addAll d ws) := by
  obtain ⟨recordName, init⟩ := VD
  cases recordName with
  | none => exact ⟨[], fun d _ => by simp [VisitVarDecl, addAll]⟩
  | some T =>
    cases hT : recognizedType T with
    | false => exact ⟨[], fun d _ => by simp [VisitVarDecl, addAll, hT]⟩
    | true =>
      have hsome : (VisitVarDecl di ⟨some T, init⟩).isSome = true := by rw [h]; rfl
      obtain ⟨children, rfl, hshape⟩ := (VisitVarDecl_isSome_iff di T init hT).1 hsome
      obtain ⟨ws, hws⟩ := visitChildren_of_entryShape T di hshape
      refine ⟨ws, fun d hd => ?_⟩
      have := VisitVarDecl_tableDecl hT d children
      rw [tableDecl] at this
      rw [this, hws d hd]

theorem scan_cons (VD : VarDecl) (rest : List VarDecl) (di : DriverInfo) :
    scan (VD :: rest) di = (VisitVarDecl di VD).bind (scan rest) := by
  simp only [scan]
  cases VisitVarDecl di VD <;> rfl

theorem scan_writes {tu : List VarDecl} {di d₁ : DriverInfo} (h : scan tu di = some d₁) :
    ∃ ws, ∀ d, d.fileName = di.fileName → scan tu d = some (addAll d ws) := by
  induction tu generalizing di with
  | nil => exact ⟨[], fun d _ => rfl⟩
  | cons VD rest ih =>
    rw [scan_cons] at h
    cases hV : VisitVarDecl di VD with
    | none => rw [hV] at h; cases h
    | some d' =>
      rw [hV, Option.some_bind] at h
      obtain ⟨ws₁, h₁⟩ := VisitVarDecl_writes hV
      obtain ⟨ws₂, h₂⟩ := ih h
      have hd' : d' = addAll di ws₁ := by
        have := h₁ di rfl
        rw [hV] at this
        exact Option.some.inj this
      refine ⟨ws₁ ++ ws₂, fun d hd => ?_⟩
      rw [scan_cons, h₁ d hd, Option.some_bind, addAll_append]
      refine h₂ _ ?_
      rw [addAll_fileName, hd, hd', addAll_fileName]

theorem valid_addAll {di : DriverInfo} (hv : di.Valid) (ws : List (String × String × String)) :
    (addAll di ws).Valid := by
  induction ws generalizing di with
  | nil => exact hv
  | cons w rest ih =>
    simp only [addAll, List.foldl_cons]
    exact ih (DriverInfo.valid_AddEntryPoint hv _ _ _)

theorem lookup_addAll (di : DriverInfo) (ws : List (String × String × String)) (T f : String) :
    (addAll di ws).lookup T f =
      ws.foldl (fun acc w => if T = w.1 ∧ f = w.2.1 then some w.2.2 else acc)
        (di.lookup T f) := by
  induction ws generalizing di with
  | nil => rfl
  | cons w rest ih =>
    simp only [addAll, List.foldl_cons]
    have := ih (di.AddEntryPoint w.1 w.2.1 w.2.2)
    simp only [addAll] at this
    rw [this, DriverInfo.lookup_AddEntryPoint]

/-- A fold of conditional overwrites either keeps its start value or forgets
it. -/
theorem foldl_overwrite (p : String × String × String → Prop) [DecidablePred p]
    (ws : List (String × String × String)) :
    (∀ x : Option String, ws.foldl (fun acc w => if p w then some w.2.2 else acc) x = x) ∨
    (∃ c, ∀ x : Option String,
      ws.foldl (fun acc w => if p w then some w.2.2 else acc) x = c) := by
  induction ws with
  | nil => exact Or.inl (fun x => rfl)
  | cons w rest ih =>
    by_cases hw : p w
    · refine Or.inr ⟨rest.foldl (fun acc w => if p w then some w.2.2 else acc) (some w.2.2),
        fun x => ?_⟩
      simp [List.foldl_cons, hw]
    · rcases ih with h | ⟨c, h⟩
      · exact Or.inl (fun x => by simp only [List.foldl_cons, hw, if_false]; exact h x)
      · exact Or.inr ⟨c, fun x => by simp only [List.foldl_cons, hw, if_false]; exact h x⟩

theorem addAll_idempotent {di : DriverInfo} (hv : di.Valid)
    (ws : List (String × String × String)) :
    addAll (addAll di ws) ws = addAll di ws := by
  refine DriverInfo.registry_ext (valid_addAll (valid_addAll hv ws) ws) (valid_addAll hv ws)
    (by simp only [addAll_fileName]) (fun T f => ?_)
  rw [lookup_addAll (addAll di ws), lookup_addAll di]
  rcases foldl_overwrite (fun w => T = w.1 ∧ f = w.2.1) ws with h | ⟨c, h⟩
  · rw [h, h]
  · rw [h, h]

/-- C7: on every valid registry and every translation unit, scanning a second
time gives the registry of the first scan: a completed scan, run again on its
own result, completes with that same result, which is valid, so the number of
registered pairs stays the same. -/
theorem scan_idempotent (tu : List VarDecl) (di : DriverInfo) (hv : di.Valid) :
    (scan tu di).bind (scan tu) = scan tu di ∧
    (∀ d₁, scan tu di = some d₁ → scan tu d₁ = some d₁ ∧ d₁.Valid) ∧
    (∀ d₁ d₂, scan tu di = some d₁ → scan tu d₁ = some d₂ → d₂.numPairs = d₁.numPairs) := by
  have key : ∀ d₁, scan tu di = some d₁ → scan tu d₁ = some d₁ ∧ d₁.Valid := by
    intro d₁ h
    obtain ⟨ws, hws⟩ := scan_writes h
    have h₁ : d₁ = addAll di ws := by
      have := hws di rfl
      rw [h] at this
      exact Option.some.inj this
    subst h₁
    refine ⟨?_, valid_addAll hv ws⟩
    rw [hws _ (addAll_fileName di ws), addAll_idempotent hv]
  refine ⟨?_, key, fun d₁ d₂ h₁ h₂ => ?_⟩
  · cases h : scan tu di with
    | none => rfl
    | some d₁ => rw [Option.some_bind, (key d₁ h).1]
  · rw [(key d₁ h₁).1] at h₂
    rw [← Option.some.inj h₂]

/-- C7 at `exampleUnit`, where `pci_driver.probe` is assigned twice: the last
assignment wins in the first scan and in the second. -/
theorem scan_idempotent_witness :
    (DriverInfo.init "drv.c").Valid ∧
    ((scan exampleUnit (DriverInfo.init "drv.c")).bind (scan exampleUnit) =
      scan exampleUnit (DriverInfo.init "drv.c")) ∧
    scan exampleUnit (DriverInfo.init "drv.c") =
      some ⟨"drv.c", [("pci_driver", [("probe", "probe_b"), ("remove", "remove_a")])]⟩ ∧
    scan exampleUnit ⟨"drv.c", [("pci_driver", [("probe", "probe_b"), ("remove", "remove_a")])]⟩ =
      some ⟨"drv.c", [("pci_driver", [("probe", "probe_b"), ("remove", "remove_a")])]⟩ :=
  ⟨by decide, (scan_idempotent exampleUnit (DriverInfo.init "drv.c") (by decide)).1,
   by decide, by decide⟩

end Chauffeur
